import Mathlib

/-!
Verification development for the mustache templating engine's C-facing core.

The repository's visible surface under `src/` consists of the FFI header
`src/src/ffi/mustache.h` (status codes, path-resolution outcomes, callback
records, and the `mustache_create_template` / `mustache_render` entry points)
together with a C sample (`src/samples/c/sample.c` and its header).  The
engine behind those declarations (delimiter scanner, tag classifier, tree
builder, renderer) is not present under `src/`; those components are modelled
here from the specification, as marked on each definition.  The enumerations
and records below, by contrast, are embedded directly from the header.
-/

namespace Mustache

/-- Status codes embedded from `mustache_status` in src/src/ffi/mustache.h
(values SUCCESS=0, INVALID_ARGUMENT=1, PARSE_ERROR=2, INTERPOLATION_ERROR=3,
OUT_OF_MEMORY=4). -/
inductive mustache_status where
  | SUCCESS
  | INVALID_ARGUMENT
  | PARSE_ERROR
  | INTERPOLATION_ERROR
  | OUT_OF_MEMORY
deriving DecidableEq

/-- Numeric value of each `mustache_status`, as assigned in the header. -/
def mustache_status.code : mustache_status → Nat
  | .SUCCESS => 0
  | .INVALID_ARGUMENT => 1
  | .PARSE_ERROR => 2
  | .INTERPOLATION_ERROR => 3
  | .OUT_OF_MEMORY => 4

/-- Path-resolution outcomes embedded from `mustache_path_resolution` in
src/src/ffi/mustache.h (values NOT_FOUND_IN_CONTEXT=0, CHAIN_BROKEN=1,
ITERATOR_CONSUMED=2, LAMBDA=3, FIELD=4). -/
inductive mustache_path_resolution where
  | NOT_FOUND_IN_CONTEXT
  | CHAIN_BROKEN
  | ITERATOR_CONSUMED
  | LAMBDA
  | FIELD
deriving DecidableEq

/-- Numeric value of each `mustache_path_resolution`, as assigned in the header. -/
def mustache_path_resolution.code : mustache_path_resolution → Nat
  | .NOT_FOUND_IN_CONTEXT => 0
  | .CHAIN_BROKEN => 1
  | .ITERATOR_CONSUMED => 2
  | .LAMBDA => 3
  | .FIELD => 4

/-- Embedded from `mustache_path_resolution_or_error` in
src/src/ffi/mustache.h: a five-way resolution outcome together with a
separate error flag and a `uint32_t` error code (modelled as `Nat`). -/
structure mustache_path_resolution_or_error where
  result : mustache_path_resolution
  has_error : Bool
  error_code : Nat
deriving DecidableEq

/-- Template text is modelled as a list of characters. -/
abbrev Chars := List Char

/-- Boolean test that `d` is an initial run of `s` (used by the scanner to
find delimiter occurrences). -/
def startsWith : Chars → Chars → Bool
  | [], _ => true
  | _ :: _, [] => false
  | d :: ds, c :: cs => d == c && startsWith ds cs

/-- Splits `s` at the first occurrence of the delimiter `d`, returning the
text before the occurrence and the text after it; `none` when `d` does not
occur (or `d` is empty). -/
def splitOnce (d : Chars) : Chars → Option (Chars × Chars)
  | [] => none
  | c :: cs =>
    if !d.isEmpty && startsWith d (c :: cs) then some ([], (c :: cs).drop d.length)
    else
      match splitOnce d cs with
      | some (a, b) => some (c :: a, b)
      | none => none

/-- Drops leading whitespace. -/
def trimL (cs : Chars) : Chars := cs.dropWhile Char.isWhitespace

/-- Drops trailing whitespace. -/
def trimR (cs : Chars) : Chars := (cs.reverse.dropWhile Char.isWhitespace).reverse

/-- Drops leading and trailing whitespace, as the tag classifier does to the
text inside a tag. -/
def trim (cs : Chars) : Chars := trimR (trimL cs)

/-- Modelled from the spec: Path parsing inside the tag classifier (the Zig
engine behind the FFI header is not under src/).  A dotted path `a.b.c`
becomes its non-empty name segments; an empty path or empty segment is a
parse error. -/
def parsePathE (content : Chars) : Except mustache_status (List String) :=
  let parts := (trim content).splitOn '.'
  if parts.any (fun l => l.isEmpty) then .error .PARSE_ERROR
  else .ok (parts.map fun l => String.mk l)

/-- Classified tags and literal runs produced by the scanner, consumed by the
tree builder. -/
inductive Item where
  | literal (cs : Chars)
  | sectionOpen (p : List String)
  | invertedOpen (p : List String)
  | sectionClose (p : List String)
  | variableT (p : List String) (escape : Bool)
  | partTag (name : Chars)
  | commentT
deriving DecidableEq

/-- Modelled from the spec: the Tag Classifier (the Zig engine behind the FFI
header is not under src/).  Maps the text inside a tag to a typed tag by its
leading sigil; whitespace is trimmed; an empty required path is a parse
error.  Delimiter-change tags are handled by the scanner before this point. -/
def classify (content : Chars) : Except mustache_status Item :=
  match trim content with
  | [] => .error .PARSE_ERROR
  | '#' :: rest => (parsePathE rest).map Item.sectionOpen
  | '^' :: rest => (parsePathE rest).map Item.invertedOpen
  | '/' :: rest => (parsePathE rest).map Item.sectionClose
  | '&' :: rest => (parsePathE rest).map (Item.variableT · false)
  | '!' :: _ => .ok Item.commentT
  | '>' :: rest => .ok (Item.partTag (trim rest))
  | other => (parsePathE other).map (Item.variableT · true)

/-- Splits a text into its maximal whitespace-free words, accumulating the
current word in reverse. -/
def wordsAux : Chars → Chars → List Chars
  | [], acc => if acc.isEmpty then [] else [acc.reverse]
  | c :: cs, acc =>
    if c.isWhitespace then
      if acc.isEmpty then wordsAux cs [] else acc.reverse :: wordsAux cs []
    else wordsAux cs (c :: acc)

/-- Modelled from the spec: parsing of the inside of a delimiter-change tag
`=newopen newclose=` (text already trimmed, known to start with `=`); yields
the two new non-empty delimiters, or `none` on malformed syntax. -/
def parseDC (t : Chars) : Option (Chars × Chars) :=
  match t with
  | '=' :: rest =>
    match rest.reverse with
    | '=' :: midRev =>
      match wordsAux midRev.reverse [] with
      | [a, b] => some (a, b)
      | _ => none
    | _ => none
  | _ => none

/-- Modelled from the spec: the Delimiter Scanner plus Tag Classifier (the
Zig engine behind the FFI header is not under src/).  Tokenizes template text
into alternating literal runs and classified tags, tracking the current
delimiter pair; a `=newopen newclose=` tag changes the delimiters for all
subsequent scanning; a tag opened but never closed is a parse error.  The
fuel argument only bounds recursion depth; `scan` supplies enough for any
input, since every step consumes at least one character. -/
def scanFuel : Nat → Chars → Chars → Chars → Except mustache_status (List Item)
  | 0, _, _, _ => .error .PARSE_ERROR
  | n + 1, odel, cdel, s =>
    match splitOnce odel s with
    | none => .ok (if s.isEmpty then [] else [Item.literal s])
    | some (lit, rest) =>
      if odel == ['{', '{'] && startsWith ['{'] rest then
        match splitOnce ['}', '}', '}'] (rest.drop 1) with
        | none => .error .PARSE_ERROR
        | some (content, rest2) =>
          match parsePathE content with
          | .error e => .error e
          | .ok p =>
            match scanFuel n odel cdel rest2 with
            | .error e => .error e
            | .ok items => .ok (Item.literal lit :: Item.variableT p false :: items)
      else
        match splitOnce cdel rest with
        | none => .error .PARSE_ERROR
        | some (content, rest2) =>
          if startsWith ['='] (trim content) then
            match parseDC (trim content) with
            | none => .error .PARSE_ERROR
            | some (no, nc) =>
              match scanFuel n no nc rest2 with
              | .error e => .error e
              | .ok items => .ok (Item.literal lit :: items)
          else
            match classify content with
            | .error e => .error e
            | .ok it =>
              match scanFuel n odel cdel rest2 with
              | .error e => .error e
              | .ok items => .ok (Item.literal lit :: it :: items)

/-- Modelled from the spec: scanning a whole template starting from the
default `\x7b\x7b` / `\x7d\x7d` delimiter pair. -/
def scan (s : Chars) : Except mustache_status (List Item) :=
  scanFuel (s.length + 1) ['{', '{'] ['}', '}'] s

/-- Compiled template nodes, as in the data model of the spec. -/
inductive Node where
  | literal (cs : Chars)
  | variableN (p : List String) (escape : Bool)
  | sectionN (p : List String) (body : List Node) (inverted : Bool)
  | partN (name : Chars)

/-- Modelled from the spec: the Tree Builder (the Zig engine behind the FFI
header is not under src/).  Consumes the classified tag stream with a stack
discipline: section opens push a frame, a close pops and must name the same
path as the popped open, a close on an empty stack or a non-empty stack at
end of input is a parse error; comments are discarded; empty literal runs
are dropped. -/
def buildLoop : List Item → List (List String × Bool × List Node) → List Node →
    Except mustache_status (List Node)
  | [], [], acc => .ok acc.reverse
  | [], _ :: _, _ => .error .PARSE_ERROR
  | Item.literal cs :: rest, stack, acc =>
    if cs.isEmpty then buildLoop rest stack acc
    else buildLoop rest stack (Node.literal cs :: acc)
  | Item.variableT p e :: rest, stack, acc => buildLoop rest stack (Node.variableN p e :: acc)
  | Item.partTag nm :: rest, stack, acc => buildLoop rest stack (Node.partN nm :: acc)
  | Item.commentT :: rest, stack, acc => buildLoop rest stack acc
  | Item.sectionOpen p :: rest, stack, acc => buildLoop rest ((p, false, acc) :: stack) []
  | Item.invertedOpen p :: rest, stack, acc => buildLoop rest ((p, true, acc) :: stack) []
  | Item.sectionClose _ :: _, [], _ => .error .PARSE_ERROR
  | Item.sectionClose p :: rest, (q, inv, parentAcc) :: stack, acc =>
    if p = q then buildLoop rest stack (Node.sectionN q acc.reverse inv :: parentAcc)
    else .error .PARSE_ERROR

/-- Number of section-open items (normal or inverted) in a tag stream. -/
def countOpens : List Item → Nat
  | [] => 0
  | Item.sectionOpen _ :: r => countOpens r + 1
  | Item.invertedOpen _ :: r => countOpens r + 1
  | _ :: r => countOpens r

/-- Number of section-close items in a tag stream. -/
def countCloses : List Item → Nat
  | [] => 0
  | Item.sectionClose _ :: r => countCloses r + 1
  | _ :: r => countCloses r

/-- Modelled from the spec: the parse pipeline Scanner then Tree Builder (the
Zig engine behind `mustache_create_template` is not under src/).  On any
parse error the whole compile aborts and no node tree is produced. -/
def parse (s : Chars) : Except mustache_status (List Node) :=
  match scan s with
  | .ok items => buildLoop items [] []
  | .error e => .error e

/-- Modelled from the spec: `mustache_create_template` from
src/src/ffi/mustache.h (its Zig implementation is not under src/): rejects an
empty template with INVALID_ARGUMENT, otherwise parses. -/
def mustache_create_template (s : Chars) : Except mustache_status (List Node) :=
  if s.isEmpty then .error .INVALID_ARGUMENT else parse s

/-- Modelled from the spec: host data reachable through the Path Resolver
Protocol (the host side of the callback contract in the FFI header; no host
implementation beyond the C sample is under src/).  A value is a scalar
text, a collection, an object of named fields, a lambda whose host-computed
expansion is a fixed text, a null, or a field whose interpolation reports a
resolver-level error with a code. -/
inductive Value where
  | nullV
  | text (s : Chars)
  | vlist (items : List Value)
  | vobj (fields : List (String × Value))
  | vlambda (expansion : Chars)
  | verr (code : Nat)

/-- Modelled from the spec: internal result of resolving a dotted path, one
of the five outcomes (`IteratorConsumed` does not arise in this model, which
iterates collections directly). -/
inductive Resolved where
  | notFound
  | chainBroken
  | lambdaR (expansion : Chars)
  | fieldR (v : Value)

/-- Looks a name up in an object's field list. -/
def objLookup : List (String × Value) → String → Option Value
  | [], _ => none
  | (k, v) :: fs, s => if k = s then some v else objLookup fs s

/-- Modelled from the spec: walking the remaining path segments inside a
value; a mid-path segment reaching a non-traversable value breaks the
chain, a missing object key is not found, and the final value classifies
as lambda or field. -/
def walkPath : Value → List String → Resolved
  | Value.vlambda e, [] => Resolved.lambdaR e
  | v, [] => Resolved.fieldR v
  | Value.vobj fs, s :: rest =>
    match objLookup fs s with
    | some v => walkPath v rest
    | none => Resolved.notFound
  | _, _ :: _ => Resolved.chainBroken

/-- Modelled from the spec: finding the frame of the resolution stack (top
first) whose object fields contain the first path segment. -/
def findFrame : List Value → String → Option Value
  | [], _ => none
  | Value.vobj fs :: st, s =>
    match objLookup fs s with
    | some v => some v
    | none => findFrame st s
  | _ :: st, s => findFrame st s

/-- Modelled from the spec: resolving a dotted path against the render
call's path-resolution stack: the first segment is looked up in the nearest
enclosing frame that has it, the remaining segments are traversed inside the
value found there. -/
def resolvePath (stack : List Value) : List String → Resolved
  | [] => Resolved.notFound
  | s :: rest =>
    match findFrame stack s with
    | some v => walkPath v rest
    | none => Resolved.notFound

/-- Textual form of a field value as the host writes it to the sink. -/
def valueText : Value → Chars
  | Value.text s => s
  | _ => []

/-- Modelled from the spec: the host `interpolate` callback of the Path
Resolver Protocol: writes the textual form of a field to the sink and
returns the outcome together with the separate error channel
(`mustache_path_resolution_or_error`); an error-reporting field sets
`has_error` and writes nothing. -/
def interpCB (stack : List Value) (p : List String) :
    Chars × mustache_path_resolution_or_error :=
  match resolvePath stack p with
  | Resolved.notFound => ([], ⟨.NOT_FOUND_IN_CONTEXT, false, 0⟩)
  | Resolved.chainBroken => ([], ⟨.CHAIN_BROKEN, false, 0⟩)
  | Resolved.lambdaR _ => ([], ⟨.LAMBDA, false, 0⟩)
  | Resolved.fieldR (Value.verr c) => ([], ⟨.FIELD, true, c⟩)
  | Resolved.fieldR v => (valueText v, ⟨.FIELD, false, 0⟩)

/-- Modelled from the spec: the host `capacity_hint` callback: a best-effort
byte-length estimate for a field resolution, advisory only. -/
def capacityCB (stack : List Value) (p : List String) :
    Nat × mustache_path_resolution :=
  match resolvePath stack p with
  | Resolved.notFound => (0, .NOT_FOUND_IN_CONTEXT)
  | Resolved.chainBroken => (0, .CHAIN_BROKEN)
  | Resolved.lambdaR _ => (0, .LAMBDA)
  | Resolved.fieldR v => ((valueText v).length, .FIELD)

/-- Modelled from the spec: the host `expand_lambda` callback: writes the
host-computed expansion of a lambda resolution to the sink. -/
def expandCB (stack : List Value) (p : List String) :
    Chars × mustache_path_resolution_or_error :=
  match resolvePath stack p with
  | Resolved.notFound => ([], ⟨.NOT_FOUND_IN_CONTEXT, false, 0⟩)
  | Resolved.chainBroken => ([], ⟨.CHAIN_BROKEN, false, 0⟩)
  | Resolved.lambdaR e => (e, ⟨.LAMBDA, false, 0⟩)
  | Resolved.fieldR (Value.verr c) => ([], ⟨.FIELD, true, c⟩)
  | Resolved.fieldR _ => ([], ⟨.FIELD, false, 0⟩)

/-- The four callback fields of `mustache_callbacks` in
src/src/ffi/mustache.h, used to record which callbacks a render invokes. -/
inductive CB where
  | get
  | capacityHint
  | interp
  | expandLambda
deriving DecidableEq

/-- Result of a render call: the bytes written to the caller-owned sink (in
order, kept also when the render aborts), the status, and the callbacks
invoked. -/
structure RenderRes where
  out : Chars
  status : mustache_status
  calls : List CB
deriving DecidableEq

/-- Generic HTML escaping of one character, applied by the engine to escaped
variables when the host writes raw text. -/
def escapeChar (c : Char) : Chars :=
  if c = '&' then ['&', 'a', 'm', 'p', ';']
  else if c = '<' then ['&', 'l', 't', ';']
  else if c = '>' then ['&', 'g', 't', ';']
  else if c = '"' then ['&', 'q', 'u', 'o', 't', ';']
  else [c]

/-- Generic HTML escaping of a text. -/
def escapeHtml (s : Chars) : Chars := (s.map escapeChar).flatten

/-- Applies HTML escaping when the variable's escape flag is set. -/
def applyEsc (esc : Bool) (s : Chars) : Chars := if esc then escapeHtml s else s

/-- Falsy field values: null, empty text, empty collection. -/
def isFalsy : Value → Bool
  | Value.nullV => true
  | Value.text [] => true
  | Value.vlist [] => true
  | _ => false

mutual

/-- Modelled from the spec: the Renderer's per-node state machine (the Zig
engine behind `mustache_render` is not under src/).  Literals write bytes
verbatim; variables ask `capacity_hint` (advisory) then `interpolate`,
branching on the returned outcome: missing and broken paths write nothing
and are not errors, a lambda outcome delegates to `expand_lambda`, and an
outcome carrying `has_error` aborts with INTERPOLATION_ERROR; sections
resolve their path and render their body zero or more times, pushing a
context frame per collection element; partials are out of scope and render
nothing. -/
def renderNode (stack : List Value) (n : Node) : RenderRes :=
  match n with
  | Node.literal cs => ⟨cs, .SUCCESS, []⟩
  | Node.partN _ => ⟨[], .SUCCESS, []⟩
  | Node.variableN p esc =>
    let _hint := capacityCB stack p
    let ir := interpCB stack p
    if ir.2.has_error then ⟨[], .INTERPOLATION_ERROR, [CB.capacityHint, CB.interp]⟩
    else if ir.2.result = .LAMBDA then
      let ex := expandCB stack p
      if ex.2.has_error then
        ⟨[], .INTERPOLATION_ERROR, [CB.capacityHint, CB.interp, CB.expandLambda]⟩
      else ⟨applyEsc esc ex.1, .SUCCESS, [CB.capacityHint, CB.interp, CB.expandLambda]⟩
    else ⟨applyEsc esc ir.1, .SUCCESS, [CB.capacityHint, CB.interp]⟩
  | Node.sectionN p body inverted =>
    if inverted then
      match resolvePath stack p with
      | Resolved.notFound =>
        let r := renderNodes stack body
        ⟨r.out, r.status, CB.get :: r.calls⟩
      | Resolved.chainBroken =>
        let r := renderNodes stack body
        ⟨r.out, r.status, CB.get :: r.calls⟩
      | Resolved.lambdaR _ => ⟨[], .SUCCESS, [CB.get]⟩
      | Resolved.fieldR v =>
        if isFalsy v then
          let r := renderNodes stack body
          ⟨r.out, r.status, CB.get :: r.calls⟩
        else ⟨[], .SUCCESS, [CB.get]⟩
    else
      match resolvePath stack p with
      | Resolved.notFound => ⟨[], .SUCCESS, [CB.get]⟩
      | Resolved.chainBroken => ⟨[], .SUCCESS, [CB.get]⟩
      | Resolved.lambdaR _ =>
        let ex := expandCB stack p
        if ex.2.has_error then ⟨[], .INTERPOLATION_ERROR, [CB.get, CB.expandLambda]⟩
        else ⟨ex.1, .SUCCESS, [CB.get, CB.expandLambda]⟩
      | Resolved.fieldR (Value.vlist items) =>
        let r := renderItems stack body items
        ⟨r.out, r.status, CB.get :: r.calls⟩
      | Resolved.fieldR v =>
        if isFalsy v then ⟨[], .SUCCESS, [CB.get]⟩
        else
          let r := renderNodes stack body
          ⟨r.out, r.status, CB.get :: r.calls⟩

/-- Modelled from the spec: rendering a node sequence in order, stopping at
the first node whose render fails and keeping the bytes written so far. -/
def renderNodes (stack : List Value) (ns : List Node) : RenderRes :=
  match ns with
  | [] => ⟨[], .SUCCESS, []⟩
  | n :: rest =>
    let r := renderNode stack n
    if r.status = .SUCCESS then
      let q := renderNodes stack rest
      ⟨r.out ++ q.out, q.status, r.calls ++ q.calls⟩
    else r

/-- Modelled from the spec: rendering a section body once per collection
element in element order, re-pointing the resolution context by pushing the
element as a new stack frame for its iteration, stopping at the first
failing iteration. -/
def renderItems (stack : List Value) (body : List Node) (items : List Value) : RenderRes :=
  match items with
  | [] => ⟨[], .SUCCESS, []⟩
  | v :: vs =>
    let r := renderNodes (v :: stack) body
    if r.status = .SUCCESS then
      let q := renderItems stack body vs
      ⟨r.out ++ q.out, q.status, r.calls ++ q.calls⟩
    else r

end

/-- Modelled from the spec: `mustache_render` from src/src/ffi/mustache.h
(its Zig implementation is not under src/): renders a compiled template
against a root host context, returning the output bytes and a status. -/
def mustache_render (t : List Node) (data : Value) : RenderRes :=
  renderNodes [data] t

/-- Tests that a node is a literal or a variable. -/
def isLitVar : Node → Bool
  | Node.literal _ => true
  | Node.variableN _ _ => true
  | _ => false

/-- Tests that a template consists only of literal and variable nodes. -/
def litVarOnly (ns : List Node) : Bool := ns.all isLitVar

/-- The paths of the variable nodes of a template, in order. -/
def varPaths : List Node → List (List String)
  | [] => []
  | Node.variableN p _ :: ns => p :: varPaths ns
  | _ :: ns => varPaths ns

/-- A tree-builder run that returns a tree balances its books: each open
pushed one frame and each close popped a matching one, so the number of
opens plus the initial stack depth equals the number of closes. -/
theorem buildLoop_ok_count (items : List Item) :
    ∀ stack acc r, buildLoop items stack acc = .ok r →
      countOpens items + stack.length = countCloses items := by
  induction items with
  | nil =>
    intro stack acc r h
    cases stack with
    | nil => simp [countOpens, countCloses]
    | cons f s => simp [buildLoop] at h
  | cons it rest ih =>
    intro stack acc r h
    cases it with
    | literal cs =>
      simp only [buildLoop] at h
      split at h
      · simpa [countOpens, countCloses] using ih _ _ _ h
      · simpa [countOpens, countCloses] using ih _ _ _ h
    | variableT p e =>
      simp only [buildLoop] at h
      simpa [countOpens, countCloses] using ih _ _ _ h
    | partTag nm =>
      simp only [buildLoop] at h
      simpa [countOpens, countCloses] using ih _ _ _ h
    | commentT =>
      simp only [buildLoop] at h
      simpa [countOpens, countCloses] using ih _ _ _ h
    | sectionOpen p =>
      simp only [buildLoop] at h
      have := ih _ _ _ h
      simp only [countOpens, countCloses, List.length_cons] at this ⊢
      omega
    | invertedOpen p =>
      simp only [buildLoop] at h
      have := ih _ _ _ h
      simp only [countOpens, countCloses, List.length_cons] at this ⊢
      omega
    | sectionClose p =>
      cases stack with
      | nil => simp [buildLoop] at h
      | cons f s =>
        obtain ⟨q, inv, parentAcc⟩ := f
        simp only [buildLoop] at h
        split at h
        · have := ih _ _ _ h
          simp only [countOpens, countCloses, List.length_cons] at this ⊢
          omega
        · simp at h

/-- The tree builder is total: it returns either a tree or PARSE_ERROR. -/
theorem buildLoop_total (items : List Item) :
    ∀ stack acc, (∃ r, buildLoop items stack acc = .ok r) ∨
      buildLoop items stack acc = .error .PARSE_ERROR := by
  induction items with
  | nil =>
    intro stack acc
    cases stack with
    | nil => exact .inl ⟨acc.reverse, rfl⟩
    | cons f s => exact .inr rfl
  | cons it rest ih =>
    intro stack acc
    cases it with
    | literal cs =>
      simp only [buildLoop]
      split
      · exact ih _ _
      · exact ih _ _
    | variableT p e => exact ih _ _
    | partTag nm => exact ih _ _
    | commentT => exact ih _ _
    | sectionOpen p => exact ih _ _
    | invertedOpen p => exact ih _ _
    | sectionClose p =>
      cases stack with
      | nil => exact .inr rfl
      | cons f s =>
        obtain ⟨q, inv, parentAcc⟩ := f
        simp only [buildLoop]
        split
        · exact ih _ _
        · exact .inr rfl

/-- Literal runs only accumulate nodes; they neither touch the section stack
nor decide success, so they can be skipped when tracing builder errors. -/
theorem buildLoop_literal_runs (lits : List Chars) :
    ∀ rest stack acc, ∃ acc2,
      buildLoop (lits.map Item.literal ++ rest) stack acc = buildLoop rest stack acc2 := by
  induction lits with
  | nil => intro rest stack acc; exact ⟨acc, rfl⟩
  | cons c cs ih =>
    intro rest stack acc
    simp only [List.map_cons, List.cons_append, buildLoop]
    split
    · exact ih rest stack acc
    · exact ih rest stack (Node.literal c :: acc)

/-- C3: a section open whose matching close names a different path is a
parse error and no template tree is handed back.  General form: for any two
distinct paths `a` and `b`, a tag stream opening a section `a`, containing
any literal runs, and closing `b` makes the tree builder fail with
PARSE_ERROR (the `Except.error` result carries no partial tree); and
end-to-end, parsing the spec's example `\x7b\x7b#a\x7d\x7d...\x7b\x7b/b\x7d\x7d`
returns PARSE_ERROR. -/
theorem C3_mismatched_section_close :
    (∀ (a b : List String) (lits : List Chars), a ≠ b →
      buildLoop (Item.sectionOpen a :: (lits.map Item.literal ++ [Item.sectionClose b])) [] [] =
        .error .PARSE_ERROR) ∧
    parse "\x7b\x7b#a\x7d\x7d...\x7b\x7b/b\x7d\x7d".data = .error .PARSE_ERROR := by
  constructor
  · intro a b lits hne
    simp only [buildLoop]
    obtain ⟨acc2, heq⟩ := buildLoop_literal_runs lits [Item.sectionClose b] [(a, false, [])] []
    rw [heq]
    simp only [buildLoop]
    rw [if_neg (fun h => hne h.symm)]
  · rfl

/-- C3 witness: the mismatched stream `#a ... /b` concretely yields
PARSE_ERROR. -/
theorem C3_mismatched_section_close_witness :
    buildLoop (Item.sectionOpen ["a"] ::
      ([" ... ".data].map Item.literal ++ [Item.sectionClose ["b"]])) [] [] =
      .error .PARSE_ERROR :=
  C3_mismatched_section_close.1 ["a"] ["b"] [" ... ".data] (by decide)

/-- C4: the tree builder is a total function (it terminates on every input
by construction), and a section open with no matching close before end of
input fails with PARSE_ERROR rather than silently dropping content.
General form: any tag stream with more section opens than closes makes the
tree builder fail with PARSE_ERROR; and end-to-end, parsing the spec's
example `\x7b\x7b#a\x7d\x7dno close` returns PARSE_ERROR. -/
theorem C4_unterminated_section :
    (∀ items : List Item, countCloses items < countOpens items →
      buildLoop items [] [] = .error .PARSE_ERROR) ∧
    parse "\x7b\x7b#a\x7d\x7dno close".data = .error .PARSE_ERROR := by
  constructor
  · intro items hlt
    rcases buildLoop_total items [] [] with ⟨r, hr⟩ | he
    · have := buildLoop_ok_count items [] [] r hr
      simp only [List.length_nil, Nat.add_zero] at this
      omega
    · exact he
  · rfl

/-- C4 witness: the stream of an unterminated section concretely yields
PARSE_ERROR. -/
theorem C4_unterminated_section_witness :
    buildLoop [Item.sectionOpen ["a"], Item.literal "no close".data] [] [] =
      .error .PARSE_ERROR :=
  C4_unterminated_section.1 [Item.sectionOpen ["a"], Item.literal "no close".data] (by decide)

/-- C8: the path-resolution outcome type of the FFI header is total — every
value is exactly one of the five named outcomes, with five distinct stable
codes — the `result` field of `mustache_path_resolution_or_error` is always
one of those same five outcomes, and error reporting is carried by the
separate `has_error`/`error_code` fields, combinable with any outcome, not
by a sixth outcome value. -/
theorem C8_resolution_outcome_total :
    (∀ r : mustache_path_resolution,
      r = .NOT_FOUND_IN_CONTEXT ∨ r = .CHAIN_BROKEN ∨ r = .ITERATOR_CONSUMED ∨
        r = .LAMBDA ∨ r = .FIELD) ∧
    (List.map mustache_path_resolution.code
      [.NOT_FOUND_IN_CONTEXT, .CHAIN_BROKEN, .ITERATOR_CONSUMED, .LAMBDA, .FIELD] =
      [0, 1, 2, 3, 4]) ∧
    (∀ e : mustache_path_resolution_or_error,
      e.result = .NOT_FOUND_IN_CONTEXT ∨ e.result = .CHAIN_BROKEN ∨
        e.result = .ITERATOR_CONSUMED ∨ e.result = .LAMBDA ∨ e.result = .FIELD) ∧
    (∀ (r : mustache_path_resolution) (b : Bool) (c : Nat),
      (mustache_path_resolution_or_error.mk r b c).result = r ∧
      (mustache_path_resolution_or_error.mk r b c).has_error = b) := by
  refine ⟨?_, by decide, ?_, ?_⟩
  · intro r; cases r <;> simp
  · intro e; obtain ⟨r, b, c⟩ := e; cases r <;> simp
  · intro r b c; exact ⟨rfl, rfl⟩

/-- C9 counterexample: the boundary status enumeration of the FFI header
contains OUT_OF_MEMORY, an error kind (distinct from SUCCESS) that is none
of the three kinds the claim lists, so the error kinds are not exactly
ParseError, InterpolationError and InvalidArgument. -/
theorem C9_out_of_memory_is_a_fourth_error_kind :
    mustache_status.OUT_OF_MEMORY ≠ mustache_status.SUCCESS ∧
    ¬(mustache_status.OUT_OF_MEMORY = mustache_status.INVALID_ARGUMENT ∨
      mustache_status.OUT_OF_MEMORY = mustache_status.PARSE_ERROR ∨
      mustache_status.OUT_OF_MEMORY = mustache_status.INTERPOLATION_ERROR) := by
  decide

/-- C9 (amended): the error kinds exposed at the external boundary are
exactly InvalidArgument, ParseError, InterpolationError and OutOfMemory —
every non-SUCCESS status is one of those four — and each status is a
distinct stable numeric value (0 through 4) a caller can branch on. -/
theorem C9_error_taxonomy :
    (∀ s : mustache_status, s ≠ .SUCCESS →
      s = .INVALID_ARGUMENT ∨ s = .PARSE_ERROR ∨ s = .INTERPOLATION_ERROR ∨
        s = .OUT_OF_MEMORY) ∧
    (List.map mustache_status.code
      [.SUCCESS, .INVALID_ARGUMENT, .PARSE_ERROR, .INTERPOLATION_ERROR, .OUT_OF_MEMORY] =
      [0, 1, 2, 3, 4]) := by
  constructor
  · intro s hs
    cases s with
    | SUCCESS => exact absurd rfl hs
    | INVALID_ARGUMENT => exact .inl rfl
    | PARSE_ERROR => exact .inr (.inl rfl)
    | INTERPOLATION_ERROR => exact .inr (.inr (.inl rfl))
    | OUT_OF_MEMORY => exact .inr (.inr (.inr rfl))
  · decide

/-- C9 witness: PARSE_ERROR is a non-SUCCESS status and lands in the
four-kind taxonomy. -/
theorem C9_error_taxonomy_witness :
    mustache_status.PARSE_ERROR = .INVALID_ARGUMENT ∨
      mustache_status.PARSE_ERROR = .PARSE_ERROR ∨
      mustache_status.PARSE_ERROR = .INTERPOLATION_ERROR ∨
      mustache_status.PARSE_ERROR = .OUT_OF_MEMORY :=
  C9_error_taxonomy.1 .PARSE_ERROR (by decide)

/-- Rendering a concatenation of node sequences whose first part succeeds
writes the first part's bytes, then behaves as the second part: output
concatenates, the status and callback trail continue from the second part. -/
theorem renderNodes_append (stack : List Value) (as bs : List Node) :
    (renderNodes stack as).status = .SUCCESS →
    renderNodes stack (as ++ bs) =
      ⟨(renderNodes stack as).out ++ (renderNodes stack bs).out,
       (renderNodes stack bs).status,
       (renderNodes stack as).calls ++ (renderNodes stack bs).calls⟩ := by
  induction as with
  | nil => intro _; simp [renderNodes]
  | cons n rest ih =>
    intro h
    by_cases h1 : (renderNode stack n).status = .SUCCESS
    · have hr : (renderNodes stack rest).status = .SUCCESS := by
        rw [renderNodes] at h
        simpa [h1] using h
      simp only [List.cons_append, renderNodes]
      simp [h1, ih hr, List.append_assoc]
    · rw [renderNodes] at h
      simp [h1] at h

/-- C2: a variable whose path resolves as not-found or chain-broken writes
nothing and the render proceeds with SUCCESS — these outcomes are normal
control flow, never surfaced as an error status. -/
theorem C2_missing_variable_renders_nothing (stack : List Value) (p : List String)
    (esc : Bool) :
    (interpCB stack p).2.result = .NOT_FOUND_IN_CONTEXT ∨
      (interpCB stack p).2.result = .CHAIN_BROKEN →
    (renderNode stack (Node.variableN p esc)).out = [] ∧
      (renderNode stack (Node.variableN p esc)).status = .SUCCESS := by
  intro h
  rw [renderNode]
  cases hres : resolvePath stack p with
  | notFound => simp [interpCB, hres, applyEsc, escapeHtml]
  | chainBroken => simp [interpCB, hres, applyEsc, escapeHtml]
  | lambdaR e => simp [interpCB, hres] at h
  | fieldR v => cases v <;> simp_all [interpCB, hres]

/-- C2 witness: a missing path on a null root context renders to nothing
with SUCCESS. -/
theorem C2_missing_variable_renders_nothing_witness :
    (renderNode [Value.nullV] (Node.variableN ["miss"] true)).out = [] ∧
      (renderNode [Value.nullV] (Node.variableN ["miss"] true)).status = .SUCCESS :=
  C2_missing_variable_renders_nothing [Value.nullV] ["miss"] true (Or.inl rfl)

/-- C5: when the interpolate callback reports an outcome with `has_error`,
the render aborts at that node with INTERPOLATION_ERROR — the nodes after
it contribute nothing — while every byte written before the error remains
in the output (no rollback). -/
theorem C5_resolver_error_aborts (stack : List Value) (pre post : List Node)
    (p : List String) (esc : Bool) :
    (renderNodes stack pre).status = .SUCCESS →
    (interpCB stack p).2.has_error = true →
    (renderNodes stack (pre ++ Node.variableN p esc :: post)).status =
        .INTERPOLATION_ERROR ∧
      (renderNodes stack (pre ++ Node.variableN p esc :: post)).out =
        (renderNodes stack pre).out := by
  intro hpre herr
  have hv : renderNode stack (Node.variableN p esc) =
      ⟨[], .INTERPOLATION_ERROR, [CB.capacityHint, CB.interp]⟩ := by
    rw [renderNode]; simp [herr]
  have hvp : renderNodes stack (Node.variableN p esc :: post) =
      ⟨[], .INTERPOLATION_ERROR, [CB.capacityHint, CB.interp]⟩ := by
    rw [renderNodes]; simp [hv]
  rw [renderNodes_append stack pre (Node.variableN p esc :: post) hpre, hvp]
  simp

/-- C5 witness: a template of a literal, then an error-reporting variable,
then another literal aborts with INTERPOLATION_ERROR keeping exactly the
literal bytes written before the error. -/
theorem C5_resolver_error_aborts_witness :
    (renderNodes [Value.vobj [("e", Value.verr 7)]]
        ([Node.literal ['o', 'k']] ++ Node.variableN ["e"] true :: [Node.literal ['z']])).status =
        .INTERPOLATION_ERROR ∧
      (renderNodes [Value.vobj [("e", Value.verr 7)]]
        ([Node.literal ['o', 'k']] ++ Node.variableN ["e"] true :: [Node.literal ['z']])).out =
        (renderNodes [Value.vobj [("e", Value.verr 7)]] [Node.literal ['o', 'k']]).out :=
  C5_resolver_error_aborts [Value.vobj [("e", Value.verr 7)]] [Node.literal ['o', 'k']]
    [Node.literal ['z']] ["e"] true (by simp [renderNodes, renderNode]) rfl

/-- C1: a non-inverted section whose path resolves to a three-element
collection renders its body exactly three times, once per element in
element order, each time re-pointing resolution by pushing that element as
the innermost context frame (the first two iterations are assumed not to
abort; the section's status is the third iteration's). -/
theorem C1_section_over_three_elements (stack : List Value) (p : List String)
    (body : List Node) (v1 v2 v3 : Value) :
    resolvePath stack p = Resolved.fieldR (Value.vlist [v1, v2, v3]) →
    (renderNodes (v1 :: stack) body).status = .SUCCESS →
    (renderNodes (v2 :: stack) body).status = .SUCCESS →
    (renderNode stack (Node.sectionN p body false)).out =
        (renderNodes (v1 :: stack) body).out ++ (renderNodes (v2 :: stack) body).out ++
          (renderNodes (v3 :: stack) body).out ∧
      (renderNode stack (Node.sectionN p body false)).status =
        (renderNodes (v3 :: stack) body).status := by
  intro hres h1 h2
  have hmain : renderNode stack (Node.sectionN p body false) =
      ⟨(renderItems stack body [v1, v2, v3]).out,
       (renderItems stack body [v1, v2, v3]).status,
       CB.get :: (renderItems stack body [v1, v2, v3]).calls⟩ := by
    rw [renderNode]; simp [hres]
  rw [hmain]
  by_cases h3 : (renderNodes (v3 :: stack) body).status = .SUCCESS
  · simp [renderItems, h1, h2, h3, List.append_assoc]
  · simp [renderItems, h1, h2, h3, List.append_assoc]

/-- C1 witness: a section over the three-element collection
`xs = [(x=1), (x=2), (x=3)]` with body `(variable x)` renders the body once
per element in order. -/
theorem C1_section_over_three_elements_witness :
    (renderNode [Value.vobj [("xs", Value.vlist
        [Value.vobj [("x", Value.text ['1'])], Value.vobj [("x", Value.text ['2'])],
          Value.vobj [("x", Value.text ['3'])]])]]
      (Node.sectionN ["xs"] [Node.variableN ["x"] true] false)).out =
        (renderNodes (Value.vobj [("x", Value.text ['1'])] ::
            [Value.vobj [("xs", Value.vlist
              [Value.vobj [("x", Value.text ['1'])], Value.vobj [("x", Value.text ['2'])],
                Value.vobj [("x", Value.text ['3'])]])]])
          [Node.variableN ["x"] true]).out ++
        (renderNodes (Value.vobj [("x", Value.text ['2'])] ::
            [Value.vobj [("xs", Value.vlist
              [Value.vobj [("x", Value.text ['1'])], Value.vobj [("x", Value.text ['2'])],
                Value.vobj [("x", Value.text ['3'])]])]])
          [Node.variableN ["x"] true]).out ++
        (renderNodes (Value.vobj [("x", Value.text ['3'])] ::
            [Value.vobj [("xs", Value.vlist
              [Value.vobj [("x", Value.text ['1'])], Value.vobj [("x", Value.text ['2'])],
                Value.vobj [("x", Value.text ['3'])]])]])
          [Node.variableN ["x"] true]).out ∧
      (renderNode [Value.vobj [("xs", Value.vlist
          [Value.vobj [("x", Value.text ['1'])], Value.vobj [("x", Value.text ['2'])],
            Value.vobj [("x", Value.text ['3'])]])]]
        (Node.sectionN ["xs"] [Node.variableN ["x"] true] false)).status =
        (renderNodes (Value.vobj [("x", Value.text ['3'])] ::
            [Value.vobj [("xs", Value.vlist
              [Value.vobj [("x", Value.text ['1'])], Value.vobj [("x", Value.text ['2'])],
                Value.vobj [("x", Value.text ['3'])]])]])
          [Node.variableN ["x"] true]).status :=
  C1_section_over_three_elements _ ["xs"] [Node.variableN ["x"] true] _ _ _ rfl
    (by simp [renderNodes, renderNode, interpCB, resolvePath, findFrame, objLookup,
      walkPath, valueText, applyEsc, escapeHtml, escapeChar, capacityCB])
    (by simp [renderNodes, renderNode, interpCB, resolvePath, findFrame, objLookup,
      walkPath, valueText, applyEsc, escapeHtml, escapeChar, capacityCB])

/-- C7: rendering is deterministic — two render calls on the identical
(template, data) pair produce byte-identical output. -/
theorem C7_render_deterministic (t : List Node) (data : Value) (r1 r2 : RenderRes) :
    r1 = mustache_render t data → r2 = mustache_render t data → r1.out = r2.out := by
  intro h1 h2
  rw [h1, h2]

/-- C7 witness: two renders of a one-literal template agree byte for byte. -/
theorem C7_render_deterministic_witness :
    (mustache_render [Node.literal ['h', 'i']] Value.nullV).out =
      (mustache_render [Node.literal ['h', 'i']] Value.nullV).out :=
  C7_render_deterministic [Node.literal ['h', 'i']] Value.nullV
    (mustache_render [Node.literal ['h', 'i']] Value.nullV)
    (mustache_render [Node.literal ['h', 'i']] Value.nullV) rfl rfl

/-- C10: rendering a template of only literal and variable nodes, none of
whose variable paths resolves to a lambda, never invokes the `get` or
`expand_lambda` callback fields — only `interpolate` and `capacity_hint`
appear in the callback trail, so a host leaving the other two fields
uninitialized (as the C sample does) never has them dereferenced. -/
theorem C10_literal_variable_only_callbacks (stack : List Value) (nodes : List Node) :
    litVarOnly nodes = true →
    (∀ p ∈ varPaths nodes, (interpCB stack p).2.result ≠ .LAMBDA) →
    CB.get ∉ (renderNodes stack nodes).calls ∧
      CB.expandLambda ∉ (renderNodes stack nodes).calls := by
  induction nodes with
  | nil => intro _ _; simp [renderNodes]
  | cons n rest ih =>
    intro hlv hnl
    have hlv' : litVarOnly rest = true := by
      simp only [litVarOnly, List.all_cons, Bool.and_eq_true] at hlv
      exact hlv.2
    cases n with
    | literal cs =>
      have hrec := ih hlv' (fun q hq => hnl q (by simpa [varPaths] using hq))
      rw [renderNodes]
      have hv : renderNode stack (Node.literal cs) = ⟨cs, .SUCCESS, []⟩ := by
        rw [renderNode]
      rw [hv]
      simp [hrec.1, hrec.2]
    | variableN p esc =>
      have hp : (interpCB stack p).2.result ≠ .LAMBDA := hnl p (by simp [varPaths])
      have hrec := ih hlv' (fun q hq => hnl q (by simp [varPaths]; exact Or.inr hq))
      rw [renderNodes]
      by_cases he : (interpCB stack p).2.has_error = true
      · have hv : renderNode stack (Node.variableN p esc) =
            ⟨[], .INTERPOLATION_ERROR, [CB.capacityHint, CB.interp]⟩ := by
          rw [renderNode]; simp [he]
        rw [hv]
        simp
      · have hv : renderNode stack (Node.variableN p esc) =
            ⟨applyEsc esc (interpCB stack p).1, .SUCCESS, [CB.capacityHint, CB.interp]⟩ := by
          rw [renderNode]; simp [he, hp]
        rw [hv]
        simp [hrec.1, hrec.2]
    | sectionN p body inv =>
      exact absurd hlv (by simp [litVarOnly, List.all_cons, isLitVar])
    | partN nm =>
      exact absurd hlv (by simp [litVarOnly, List.all_cons, isLitVar])

/-- C10 witness: the sample-like template `literal + variable(title)`
against an object host invokes no callback besides `capacity_hint` and
`interpolate`. -/
theorem C10_literal_variable_only_callbacks_witness :
    CB.get ∉ (renderNodes [Value.vobj [("title", Value.text ['t'])]]
        [Node.literal ['a'], Node.variableN ["title"] true]).calls ∧
      CB.expandLambda ∉ (renderNodes [Value.vobj [("title", Value.text ['t'])]]
        [Node.literal ['a'], Node.variableN ["title"] true]).calls :=
  C10_literal_variable_only_callbacks [Value.vobj [("title", Value.text ['t'])]]
    [Node.literal ['a'], Node.variableN ["title"] true] rfl
    (by intro p hp; simp [varPaths] at hp; subst hp; decide)

/-- A delimiter prefix of a text stays a prefix when the text is extended. -/
theorem startsWith_length (d : Chars) : ∀ s, startsWith d s = true → d.length ≤ s.length := by
  induction d with
  | nil => intro s _; simp
  | cons c cs ih =>
    intro s h
    cases s with
    | nil => simp [startsWith] at h
    | cons x xs =>
      simp only [startsWith, Bool.and_eq_true] at h
      have := ih xs h.2
      simp only [List.length_cons]
      omega

/-- Whether a delimiter starts a text is decided within the first
`d.length` characters, so appending further text does not change it. -/
theorem startsWith_append_of_le (d : Chars) :
    ∀ s t, d.length ≤ s.length → startsWith d (s ++ t) = startsWith d s := by
  induction d with
  | nil => intro s t _; simp [startsWith]
  | cons c cs ih =>
    intro s t h
    cases s with
    | nil => simp at h
    | cons x xs =>
      simp only [List.cons_append, startsWith, List.append_eq]
      rw [ih xs t (by simpa using h)]

/-- A text in which a delimiter occurs is at least as long as the
delimiter. -/
theorem splitOnce_some_le (d : Chars) :
    ∀ s p q, splitOnce d s = some (p, q) → d.length ≤ s.length := by
  intro s
  induction s with
  | nil => intro p q h; simp [splitOnce] at h
  | cons c cs ih =>
    intro p q h
    by_cases hb : (!d.isEmpty && startsWith d (c :: cs)) = true
    · exact startsWith_length d (c :: cs) (by simp only [Bool.and_eq_true] at hb; exact hb.2)
    · rw [splitOnce, if_neg (by simpa using hb)] at h
      cases hs : splitOnce d cs with
      | none => rw [hs] at h; simp at h
      | some pq =>
        have := ih pq.1 pq.2 (by rw [hs])
        simp only [List.length_cons]
        omega

/-- When the first occurrence of a delimiter in a text is at its very end,
appending more text keeps that first occurrence in place, and the appended
text becomes the remainder of the split. -/
theorem splitOnce_extend (d : Chars) :
    ∀ s a, splitOnce d s = some (a, []) → ∀ b, splitOnce d (s ++ b) = some (a, b) := by
  intro s
  induction s with
  | nil => intro a h b; simp [splitOnce] at h
  | cons c cs ih =>
    intro a h b
    show splitOnce d (c :: (cs ++ b)) = some (a, b)
    by_cases hb : (!d.isEmpty && startsWith d (c :: cs)) = true
    · rw [splitOnce, if_pos hb] at h
      simp only [Option.some.injEq, Prod.mk.injEq] at h
      obtain ⟨ha, hdrop⟩ := h
      simp only [Bool.and_eq_true] at hb
      have hsw : startsWith d (c :: cs) = true := hb.2
      have hle := startsWith_length d (c :: cs) hsw
      have hlen : (c :: cs).length ≤ d.length := by
        rw [← List.drop_eq_nil_iff]; exact hdrop
      have heq : d.length = (c :: cs).length := le_antisymm hle hlen
      have hsw2 : startsWith d (c :: (cs ++ b)) = true := by
        have hx : startsWith d ((c :: cs) ++ b) = startsWith d (c :: cs) :=
          startsWith_append_of_le d (c :: cs) b hle
        have hx' : startsWith d (c :: (cs ++ b)) = startsWith d (c :: cs) := hx
        rw [hx', hsw]
      have hb2 : (!d.isEmpty && startsWith d (c :: (cs ++ b))) = true := by
        simp only [Bool.and_eq_true]
        exact ⟨hb.1, hsw2⟩
      rw [splitOnce, if_pos hb2]
      have hdropb : (c :: (cs ++ b)).drop d.length = b := by
        rw [heq]
        exact List.drop_left (c :: cs) b
      rw [hdropb, ← ha]
    · rw [splitOnce, if_neg (by simpa using hb)] at h
      cases hs : splitOnce d cs with
      | none => rw [hs] at h; simp at h
      | some pq =>
        obtain ⟨p, q⟩ := pq
        rw [hs] at h
        simp only [Option.some.injEq, Prod.mk.injEq] at h
        obtain ⟨ha, hq⟩ := h
        subst hq
        have hrec := ih p hs b
        have hd : d.length ≤ cs.length := splitOnce_some_le d cs p [] hs
        have hb2 : ¬ (!d.isEmpty && startsWith d (c :: (cs ++ b))) = true := by
          intro hcon
          simp only [Bool.and_eq_true] at hcon hb
          apply hb
          refine ⟨hcon.1, ?_⟩
          have hlex : d.length ≤ (c :: cs).length := by
            simp only [List.length_cons]; omega
          have hx : startsWith d ((c :: cs) ++ b) = startsWith d (c :: cs) :=
            startsWith_append_of_le d (c :: cs) b hlex
          have hx' : startsWith d (c :: (cs ++ b)) = startsWith d (c :: cs) := hx
          rw [← hx', hcon.2]
        rw [splitOnce, if_neg hb2]
        rw [hrec, ← ha]

/-- A whitespace-free run entering the word splitter is accumulated whole
onto the current word. -/
theorem wordsAux_words (w : Chars) :
    ∀ rest acc, w.all (fun c => !c.isWhitespace) = true →
      wordsAux (w ++ rest) acc = wordsAux rest (w.reverse ++ acc) := by
  induction w with
  | nil => intro rest acc _; simp
  | cons c cs ih =>
    intro rest acc hall
    simp only [List.all_cons, Bool.and_eq_true] at hall
    have hc : c.isWhitespace = false := by simpa using hall.1
    rw [List.cons_append, wordsAux]
    simp only [hc, Bool.false_eq_true, if_false]
    rw [ih rest (c :: acc) hall.2]
    simp [List.append_assoc]

/-- C6: a delimiter-change tag takes effect strictly after the declaring
tag for all subsequent scanning.  General form: for any non-empty,
whitespace-free delimiter pair `no`/`nc` whose declaring tag
`\x7b\x7b=no nc=\x7d\x7d` is closed at its first `\x7d\x7d` occurrence
(the splitOnce premise), scanning the tag followed by any remaining text
equals scanning the remainder with the new pair — the change governs
exactly the text after the tag.  In particular the template
`\x7b\x7b=<% %>=\x7d\x7dHello <%name%>` compiles to a literal plus the
variable `name`, rendering `Hello X` when `name = "X"`, and a
`\x7b\x7b`-style tag appearing after the change stays literal text. -/
theorem C6_delimiter_change :
    (∀ (n : Nat) (no nc rest : Chars),
      no ≠ [] → nc ≠ [] →
      no.all (fun c => !c.isWhitespace) = true →
      nc.all (fun c => !c.isWhitespace) = true →
      splitOnce ['}', '}'] ('=' :: (no ++ ' ' :: (nc ++ ['=', '}', '}']))) =
        some ('=' :: (no ++ ' ' :: (nc ++ ['='])), []) →
      scanFuel (n + 1) ['{', '{'] ['}', '}']
          ('{' :: '{' :: '=' :: (no ++ ' ' :: (nc ++ '=' :: '}' :: '}' :: rest))) =
        Except.map (fun items => Item.literal [] :: items) (scanFuel n no nc rest)) ∧
    (parse "\x7b\x7b=<% %>=\x7d\x7dHello <%name%>".data =
        .ok [Node.literal ['H', 'e', 'l', 'l', 'o', ' '], Node.variableN ["name"] true] ∧
      (mustache_render [Node.literal ['H', 'e', 'l', 'l', 'o', ' '], Node.variableN ["name"] true]
          (Value.vobj [("name", Value.text ['X'])])).out =
        ['H', 'e', 'l', 'l', 'o', ' ', 'X']) ∧
    parse "\x7b\x7b=<% %>=\x7d\x7dA\x7b\x7bx\x7d\x7dB".data =
      .ok [Node.literal ['A', '{', '{', 'x', '}', '}', 'B']] := by
  refine ⟨?_, ⟨rfl, ?_⟩, rfl⟩
  · intro n no nc rest hno hnc hwno hwnc hsplit
    have hwsEq : ('=' : Char).isWhitespace = false := by decide
    have hsp : (' ' : Char).isWhitespace = true := by decide
    have hnoe : (no.reverse).isEmpty = false := by
      cases hh : no.reverse with
      | nil => exact absurd (by simpa using hh) hno
      | cons y ys => rfl
    have hnce : (nc.reverse).isEmpty = false := by
      cases hh : nc.reverse with
      | nil => exact absurd (by simpa using hh) hnc
      | cons y ys => rfl
    have h2 : splitOnce ['}', '}'] ('=' :: (no ++ ' ' :: (nc ++ '=' :: '}' :: '}' :: rest))) =
        some ('=' :: (no ++ ' ' :: (nc ++ ['='])), rest) := by
      have hx := splitOnce_extend ['}', '}'] _ _ hsplit rest
      simpa using hx
    have h1 : splitOnce ['{', '{']
        ('{' :: '{' :: '=' :: (no ++ ' ' :: (nc ++ '=' :: '}' :: '}' :: rest))) =
        some ([], '=' :: (no ++ ' ' :: (nc ++ '=' :: '}' :: '}' :: rest))) := by
      simp [splitOnce, startsWith]
    have hguard : startsWith ['{'] ('=' :: (no ++ ' ' :: (nc ++ '=' :: '}' :: '}' :: rest))) =
        false := by
      simp [startsWith]
    have htrimL : trimL ('=' :: (no ++ ' ' :: (nc ++ ['=']))) =
        '=' :: (no ++ ' ' :: (nc ++ ['='])) := by
      simp [trimL, List.dropWhile_cons, hwsEq]
    have htrimR : trimR ('=' :: (no ++ ' ' :: (nc ++ ['=']))) =
        '=' :: (no ++ ' ' :: (nc ++ ['='])) := by
      simp [trimR, hwsEq]
    have htrim : trim ('=' :: (no ++ ' ' :: (nc ++ ['=']))) =
        '=' :: (no ++ ' ' :: (nc ++ ['='])) := by
      rw [trim, htrimL, htrimR]
    have hsw3 : startsWith ['='] ('=' :: (no ++ ' ' :: (nc ++ ['=']))) = true := by
      simp [startsWith]
    have hw2 : wordsAux nc [] = [nc] := by
      have hx := wordsAux_words nc [] [] hwnc
      simp only [List.append_nil] at hx
      rw [hx, wordsAux]
      simp [hnce]
    have hwords : wordsAux (no ++ ' ' :: nc) [] = [no, nc] := by
      rw [wordsAux_words no (' ' :: nc) [] hwno]
      simp only [List.append_nil]
      rw [wordsAux]
      simp [hsp, hnoe, hw2]
    have hPDC : parseDC ('=' :: (no ++ ' ' :: (nc ++ ['=']))) = some (no, nc) := by
      rw [parseDC]
      simp [hwords]
    cases hscan : scanFuel n no nc rest with
    | error e =>
      rw [scanFuel]
      simp [h1, hguard, h2, htrim, hsw3, hPDC, hscan, Except.map]
    | ok items =>
      rw [scanFuel]
      simp [h1, hguard, h2, htrim, hsw3, hPDC, hscan, Except.map]
  · simp [mustache_render, renderNodes, renderNode, interpCB, resolvePath, findFrame,
      objLookup, walkPath, valueText, applyEsc, escapeHtml, escapeChar, capacityCB]

/-- C6 witness: the declaring tag with pair `<%`/`%>` followed by the text
`Hi <%x%>` scans exactly as that text scanned under the new pair. -/
theorem C6_delimiter_change_witness :
    scanFuel (20 + 1) ['{', '{'] ['}', '}']
        ('{' :: '{' :: '=' :: (['<', '%'] ++ ' ' ::
          (['%', '>'] ++ '=' :: '}' :: '}' :: "Hi <%x%>".data))) =
      Except.map (fun items => Item.literal [] :: items)
        (scanFuel 20 ['<', '%'] ['%', '>'] "Hi <%x%>".data) :=
  C6_delimiter_change.1 20 ['<', '%'] ['%', '>'] "Hi <%x%>".data
    (by decide) (by decide) (by decide) (by decide) rfl

end Mustache
